import Mathlib

/-!
Shallow embedding of the `blockchain-demo-rust` core ledger engine
(`src/account.rs`, `src/transaction.rs`, `src/block.rs`, `src/blockchain.rs`).

Modelling conventions:
* `Address`, `U256`, `H256`, `u64` and bytes are all embedded as `Nat`.
  Rust's `U256`/`u64` arithmetic panics on overflow and underflow, and the
  code paths modelled here either guard their subtractions or are quantified
  over successful (non-panicking) executions, so plain `Nat` arithmetic
  coincides with the source on every run that returns normally.
* Keccak256 enters every definition as an explicit parameter
  `kec : List Nat → Nat` mapping a byte stream to a digest; incremental
  `hasher.update` calls in the source become list concatenation.
  `testHash` below is a concrete executable instantiation used for witnesses.
* `HashMap` becomes an association list with unique keys; its unspecified
  iteration order is irrelevant to the source exactly where the source sorts
  before hashing, which is what the state-root purity theorem establishes.
* The external `revm` virtual machine (`src/evm.rs` wraps the third-party
  `revm` crate, declared out of scope by the specification) enters the
  chain-level pipeline as an abstract parameter `vm`.
* Rust methods returning `Result<(), String>` on a `&mut` receiver are
  embedded as functions returning `WorldState × Except String Unit`, so the
  "unchanged on error" behaviour is part of the value.  Chain-level
  `execute_transaction`/`add_block` return `Except String _` (errors there
  only carry the message; the claims settled against them concern the
  successful path and the pre-replay checks).  `add_block` is wrapped in
  `Option` because `latest.hash.unwrap()` can panic: `none` models a panic.
-/

namespace RustChain

/-- Big-endian byte encoding of `n` on `w` bytes (`to_be_bytes` /
`to_big_endian` in the source); higher bits beyond `8*w` are truncated just
as the fixed-width Rust integer types cannot carry them. -/
def toBytes : Nat → Nat → List Nat
  | 0, _ => []
  | w + 1, n => toBytes w (n / 256) ++ [n % 256]

/-- Big-endian base-16 digit rendering on `w` digits, modelling
`format!("{:x}", h)` for a fixed-width hash (64 hex digits for `H256`). -/
def toHexDigits : Nat → Nat → List Nat
  | 0, _ => []
  | w + 1, n => toHexDigits w (n / 16) ++ [n % 16]

/-- Decodes a big-endian byte list; inverse of `toBytes` on in-range values. -/
def fromBytes (l : List Nat) : Nat :=
  l.foldl (fun a b => a * 256 + b) 0

theorem toBytes_length (w n : Nat) : (toBytes w n).length = w := by
  induction w generalizing n with
  | zero => rfl
  | succ w ih => simp [toBytes, ih]

theorem toBytes_zero (w : Nat) : toBytes w 0 = List.replicate w 0 := by
  induction w with
  | zero => rfl
  | succ w ih => simp [toBytes, ih, List.replicate_succ']

theorem toBytes_inj {w n m : Nat} (hn : n < 256 ^ w) (hm : m < 256 ^ w)
    (h : toBytes w n = toBytes w m) : n = m := by
  induction w generalizing n m with
  | zero => omega
  | succ w ih =>
    simp only [toBytes] at h
    have hlen : ([n % 256] : List Nat).length = ([m % 256] : List Nat).length := rfl
    obtain ⟨h1, h2⟩ := List.append_inj' h hlen
    have hd : n / 256 = m / 256 := by
      refine ih ?_ ?_ h1
      · exact Nat.div_lt_of_lt_mul (by rw [pow_succ] at hn; omega)
      · exact Nat.div_lt_of_lt_mul (by rw [pow_succ] at hm; omega)
    have hm256 : n % 256 = m % 256 := by simpa using h2
    omega

/-- Concrete executable stand-in for Keccak256 (an FNV-style rolling hash
reduced mod `2^256`), used to instantiate the `kec` parameter in witnesses
and counterexamples. -/
def testHash (l : List Nat) : Nat :=
  l.foldl (fun h b => (h * 1099511628211 + b + 1) % 2 ^ 256) 5381

/-- `Account` (src/account.rs). `storage` is the embedding of
`HashMap<U256, U256>` as an association list with unique keys. -/
structure Account where
  balance : Nat
  nonce : Nat
  code : List Nat
  code_hash : Nat
  storage : List (Nat × Nat)
  deriving DecidableEq

/-- `Account::new` -/
def Account.new : Account :=
  { balance := 0, nonce := 0, code := [], code_hash := 0, storage := [] }

/-- `Account::new_with_balance` -/
def Account.new_with_balance (balance : Nat) : Account :=
  { Account.new with balance := balance }

/-- `Account::is_contract` -/
def Account.is_contract (a : Account) : Bool :=
  a.code ≠ []

/-- `Account::is_empty` -/
def Account.isEmptyAccount (a : Account) : Bool :=
  a.balance == 0 && a.nonce == 0 && a.code.isEmpty && a.storage.isEmpty

/-- `Account::add_balance` (Rust `U256` addition panics on overflow; claims
quantify over non-panicking runs, where `Nat` addition agrees). -/
def Account.add_balance (a : Account) (amount : Nat) : Account :=
  { a with balance := a.balance + amount }

/-- `Account::sub_balance` -/
def Account.sub_balance (a : Account) (amount : Nat) : Except String Account :=
  if a.balance < amount then .error "Insufficient balance"
  else .ok { a with balance := a.balance - amount }

/-- `Account::increment_nonce` -/
def Account.increment_nonce (a : Account) : Account :=
  { a with nonce := a.nonce + 1 }

/-- `Account::set_code` -/
def Account.set_code (kec : List Nat → Nat) (a : Account) (code : List Nat) : Account :=
  { a with code := code, code_hash := if code = [] then 0 else kec code }

/-- Association-list lookup, the embedding of `HashMap::get`. -/
def lookupKV {β : Type} : List (Nat × β) → Nat → Option β
  | [], _ => none
  | (k, v) :: t, a => if k = a then some v else lookupKV t a

/-- Association-list insert-or-replace, the embedding of `HashMap::insert`
(and of `entry(..).or_insert(..)` followed by mutation). -/
def insertKV {β : Type} : List (Nat × β) → Nat → β → List (Nat × β)
  | [], a, v => [(a, v)]
  | (k, w) :: t, a, v => if k = a then (k, v) :: t else (k, w) :: insertKV t a v

/-- Association-list removal, the embedding of `HashMap::remove`. -/
def removeKV {β : Type} (l : List (Nat × β)) (a : Nat) : List (Nat × β) :=
  l.filter (fun p => p.1 ≠ a)

/-- `Account::get_storage` -/
def Account.get_storage (a : Account) (key : Nat) : Nat :=
  (lookupKV a.storage key).getD 0

/-- `Account::set_storage` (zero values are removed, not stored). -/
def Account.set_storage (a : Account) (key value : Nat) : Account :=
  if value = 0 then { a with storage := removeKV a.storage key }
  else { a with storage := insertKV a.storage key value }

/-- `Account::clear_storage` -/
def Account.clear_storage (a : Account) : Account :=
  { a with storage := [] }

/-- Sort key-value pairs ascending by key, the embedding of
`sorted_storage.sort_by_key(|&(k, _)| k)` / `sort_by_key(|&(addr, _)| addr)`. -/
def sortByKey {β : Type} (l : List (Nat × β)) : List (Nat × β) :=
  List.insertionSort (fun p q => p.1 ≤ q.1) l

/-- `Account::storage_root`: zero for empty storage, otherwise Keccak over the
key-sorted `(key_be32 ‖ value_be32)` pairs. -/
def Account.storage_root (kec : List Nat → Nat) (a : Account) : Nat :=
  if a.storage = [] then 0
  else kec ((sortByKey a.storage).map (fun p => toBytes 32 p.1 ++ toBytes 32 p.2)).flatten

/-- `WorldState` (src/account.rs). `accounts` embeds
`HashMap<Address, Account>` as an association list with unique keys. -/
structure WorldState where
  accounts : List (Nat × Account)
  state_root : Nat
  deriving DecidableEq

/-- `WorldState::new` -/
def WorldState.new : WorldState :=
  { accounts := [], state_root := 0 }

/-- `WorldState::get_account` as a value lookup. -/
def WorldState.get_account (s : WorldState) (address : Nat) : Option Account :=
  lookupKV s.accounts address

/-- The account `get_account_mut` hands out: the stored one or a fresh default. -/
def WorldState.getOrNew (s : WorldState) (address : Nat) : Account :=
  (lookupKV s.accounts address).getD Account.new

/-- Mutation through `get_account_mut`: `entry(*address).or_insert_with(Account::new)`
followed by an in-place update equals insert-or-replace of the updated value. -/
def WorldState.withAccount (s : WorldState) (address : Nat) (f : Account → Account) : WorldState :=
  { s with accounts := insertKV s.accounts address (f (s.getOrNew address)) }

/-- `WorldState::get_balance` -/
def WorldState.get_balance (s : WorldState) (address : Nat) : Nat :=
  ((lookupKV s.accounts address).map Account.balance).getD 0

/-- `WorldState::get_nonce` -/
def WorldState.get_nonce (s : WorldState) (address : Nat) : Nat :=
  ((lookupKV s.accounts address).map Account.nonce).getD 0

/-- Per-account byte stream fed to the inner hasher of
`WorldState::update_state_root`: `balance_be32 ‖ nonce_be8 ‖ code_hash ‖ storage_root`. -/
def accountInnerBytes (kec : List Nat → Nat) (a : Account) : List Nat :=
  toBytes 32 a.balance ++ toBytes 8 a.nonce ++ toBytes 32 a.code_hash ++
    toBytes 32 (a.storage_root kec)

/-- Per-entry contribution to the outer hasher: the 20-byte address followed by
the 32-byte inner digest. -/
def accountEntryBytes (kec : List Nat → Nat) (p : Nat × Account) : List Nat :=
  toBytes 20 p.1 ++ toBytes 32 (kec (accountInnerBytes kec p.2))

/-- The digest `WorldState::update_state_root` computes from an accounts map:
zero for the empty map, otherwise Keccak over the address-sorted entries. -/
def computeStateRoot (kec : List Nat → Nat) (accounts : List (Nat × Account)) : Nat :=
  if accounts = [] then 0
  else kec ((sortByKey accounts).map (accountEntryBytes kec)).flatten

/-- `WorldState::update_state_root` -/
def WorldState.update_state_root (kec : List Nat → Nat) (s : WorldState) : WorldState :=
  { s with state_root := computeStateRoot kec s.accounts }

/-- `WorldState::create_account` -/
def WorldState.create_account (kec : List Nat → Nat) (s : WorldState)
    (address : Nat) (account : Account) : WorldState :=
  WorldState.update_state_root kec { s with accounts := insertKV s.accounts address account }

/-- `WorldState::delete_account` -/
def WorldState.delete_account (kec : List Nat → Nat) (s : WorldState) (address : Nat) : WorldState :=
  WorldState.update_state_root kec { s with accounts := removeKV s.accounts address }

/-- `WorldState::set_balance` -/
def WorldState.set_balance (kec : List Nat → Nat) (s : WorldState)
    (address balance : Nat) : WorldState :=
  WorldState.update_state_root kec (s.withAccount address (fun a => { a with balance := balance }))

/-- `WorldState::set_nonce` -/
def WorldState.set_nonce (kec : List Nat → Nat) (s : WorldState)
    (address nonce : Nat) : WorldState :=
  WorldState.update_state_root kec (s.withAccount address (fun a => { a with nonce := nonce }))

/-- `WorldState::increment_nonce` -/
def WorldState.increment_nonce (kec : List Nat → Nat) (s : WorldState) (address : Nat) : WorldState :=
  WorldState.update_state_root kec (s.withAccount address Account.increment_nonce)

/-- `WorldState::transfer`.  Returns the resulting state together with the
`Result`; on the guard failure the state is returned untouched, mirroring the
early `return Err` before any mutation.  The inner `sender.sub_balance(amount)?`
is kept even though the outer guard makes its failure unreachable; on that dead
path the sender account has already been materialized by `get_account_mut`. -/
def WorldState.transfer (kec : List Nat → Nat) (s : WorldState)
    (fromAddr toAddr amount : Nat) : WorldState × Except String Unit :=
  if s.get_balance fromAddr < amount then (s, .error "Insufficient balance")
  else
    let sender := s.getOrNew fromAddr
    match sender.sub_balance amount with
    | .error e => ({ s with accounts := insertKV s.accounts fromAddr sender }, .error e)
    | .ok sender' =>
      let s1 := { s with accounts := insertKV s.accounts fromAddr sender'.increment_nonce }
      let s2 := s1.withAccount toAddr (fun r => r.add_balance amount)
      (WorldState.update_state_root kec s2, .ok ())

/-- `WorldState::deploy_contract` -/
def WorldState.deploy_contract (kec : List Nat → Nat) (s : WorldState)
    (deployer contract_address : Nat) (code : List Nat) : WorldState × Except String Unit :=
  if (lookupKV s.accounts contract_address).isSome then
    (s, .error "Contract address already exists")
  else
    let s1 := s.increment_nonce kec deployer
    let contract_account := Account.set_code kec { Account.new with balance := 0 } code
    let s2 := { s1 with accounts := insertKV s1.accounts contract_address contract_account }
    (WorldState.update_state_root kec s2, .ok ())

/-- `WorldState::set_contract_code` -/
def WorldState.set_contract_code (kec : List Nat → Nat) (s : WorldState)
    (address : Nat) (code : List Nat) : WorldState :=
  WorldState.update_state_root kec (s.withAccount address (fun a => a.set_code kec code))

/-- `WorldState::set_storage` -/
def WorldState.set_storage (kec : List Nat → Nat) (s : WorldState)
    (address key value : Nat) : WorldState :=
  WorldState.update_state_root kec (s.withAccount address (fun a => a.set_storage key value))

/-- `WorldState::clear_storage` (a no-op when the account is absent). -/
def WorldState.clear_storage (kec : List Nat → Nat) (s : WorldState) (address : Nat) : WorldState :=
  match lookupKV s.accounts address with
  | none => s
  | some a =>
    WorldState.update_state_root kec
      { s with accounts := insertKV s.accounts address a.clear_storage }

/-- `WorldState::remove_empty_accounts` -/
def WorldState.remove_empty_accounts (kec : List Nat → Nat) (s : WorldState) : WorldState :=
  WorldState.update_state_root kec
    { s with accounts := s.accounts.filter (fun p => !p.2.isEmptyAccount) }

/-- `WorldState::apply_changes` (inserts every account of `other`). -/
def WorldState.apply_changes (kec : List Nat → Nat) (s : WorldState) (other : WorldState) : WorldState :=
  WorldState.update_state_root kec
    { s with accounts := other.accounts.foldl (fun acc p => insertKV acc p.1 p.2) s.accounts }

/-- `WorldStateSnapshot` (src/account.rs). -/
structure WorldStateSnapshot where
  accounts : List (Nat × Account)
  state_root : Nat
  deriving DecidableEq

/-- `WorldState::snapshot` -/
def WorldState.snapshot (s : WorldState) : WorldStateSnapshot :=
  { accounts := s.accounts, state_root := s.state_root }

/-- `WorldState::restore_snapshot` -/
def WorldState.restore_snapshot (_s : WorldState) (snap : WorldStateSnapshot) : WorldState :=
  { accounts := snap.accounts, state_root := snap.state_root }

/-- `TransactionType` (src/transaction.rs). -/
inductive TransactionType where
  | Transfer
  | ContractDeployment
  | ContractCall
  deriving DecidableEq

/-- `Transaction` (src/transaction.rs); `from`/`to` are Lean keywords, hence
`fromAddr`/`toAddr`. -/
structure Transaction where
  fromAddr : Nat
  toAddr : Option Nat
  value : Nat
  data : List Nat
  gas_limit : Nat
  gas_price : Nat
  nonce : Nat
  hash : Option Nat
  tx_type : TransactionType
  deriving DecidableEq

/-- `Transaction::new_transfer` -/
def Transaction.new_transfer (fromAddr toAddr value nonce : Nat) : Transaction :=
  { fromAddr := fromAddr, toAddr := some toAddr, value := value, data := [],
    gas_limit := 21000, gas_price := 20000000000, nonce := nonce, hash := none,
    tx_type := .Transfer }

/-- The 1-byte type tag hashed last by `Transaction::calculate_hash`. -/
def TransactionType.tag : TransactionType → Nat
  | .Transfer => 0
  | .ContractDeployment => 1
  | .ContractCall => 2

/-- The byte stream `Transaction::calculate_hash` feeds to Keccak256:
`from ‖ to_or_20_zeros ‖ value_be32 ‖ data ‖ gas_limit_be8 ‖ gas_price_be32 ‖
nonce_be8 ‖ type_tag`. -/
def txHashInput (t : Transaction) : List Nat :=
  toBytes 20 t.fromAddr ++
    (match t.toAddr with
     | some a => toBytes 20 a
     | none => List.replicate 20 0) ++
    toBytes 32 t.value ++ t.data ++ toBytes 8 t.gas_limit ++
    toBytes 32 t.gas_price ++ toBytes 8 t.nonce ++ [t.tx_type.tag]

/-- `Transaction::calculate_hash` -/
def Transaction.calculate_hash (kec : List Nat → Nat) (t : Transaction) : Nat :=
  kec (txHashInput t)

/-- `Transaction::set_hash` -/
def Transaction.set_hash (kec : List Nat → Nat) (t : Transaction) : Transaction :=
  { t with hash := some (t.calculate_hash kec) }

/-- `Transaction::is_contract_deployment` -/
def Transaction.is_contract_deployment (t : Transaction) : Bool :=
  match t.tx_type with
  | .ContractDeployment => true
  | _ => false

/-- `Transaction::is_contract_call` -/
def Transaction.is_contract_call (t : Transaction) : Bool :=
  match t.tx_type with
  | .ContractCall => true
  | _ => false

/-- `Transaction::is_transfer` -/
def Transaction.is_transfer (t : Transaction) : Bool :=
  match t.tx_type with
  | .Transfer => true
  | _ => false

/-- `Transaction::estimated_gas_cost` = `gas_price * gas_limit`. -/
def Transaction.estimated_gas_cost (t : Transaction) : Nat :=
  t.gas_price * t.gas_limit

/-- `Transaction::validate` -/
def Transaction.validate (t : Transaction) : Except String Unit :=
  if t.gas_limit = 0 then .error "Gas limit cannot be zero"
  else if t.gas_price = 0 then .error "Gas price cannot be zero"
  else
    match t.tx_type with
    | .Transfer =>
      if t.toAddr.isNone then .error "Transfer must have a recipient"
      else if t.data ≠ [] then .error "Transfer should not have data"
      else .ok ()
    | .ContractDeployment =>
      if t.toAddr.isSome then .error "Contract deployment should not have a recipient"
      else if t.data = [] then .error "Contract deployment must have bytecode"
      else .ok ()
    | .ContractCall =>
      if t.toAddr.isNone then .error "Contract call must have a recipient"
      else .ok ()

/-- `Block` (src/block.rs). `timestamp` is taken at construction from the
system clock, so here it is a parameter of `Block.new`. -/
structure Block where
  number : Nat
  hash : Option Nat
  parent_hash : Nat
  transactions : List Transaction
  timestamp : Nat
  gas_limit : Nat
  gas_used : Nat
  nonce : Nat
  deriving DecidableEq

/-- `Block::new` -/
def Block.new (number parent_hash : Nat) (transactions : List Transaction)
    (timestamp : Nat) : Block :=
  { number := number, hash := none, parent_hash := parent_hash,
    transactions := transactions, timestamp := timestamp,
    gas_limit := 30000000, gas_used := 0, nonce := 0 }

/-- The byte stream `Block::calculate_hash` feeds to Keccak256; a transaction
with an unset hash contributes nothing. -/
def blockHashInput (b : Block) : List Nat :=
  toBytes 8 b.number ++ toBytes 32 b.parent_hash ++ toBytes 8 b.timestamp ++
    toBytes 8 b.nonce ++ toBytes 8 b.gas_limit ++ toBytes 8 b.gas_used ++
    (b.transactions.map (fun t =>
      match t.hash with
      | some h => toBytes 32 h
      | none => [])).flatten

/-- `Block::calculate_hash` -/
def Block.calculate_hash (kec : List Nat → Nat) (b : Block) : Nat :=
  kec (blockHashInput b)

/-- `Block::set_hash` -/
def Block.set_hash (kec : List Nat → Nat) (b : Block) : Block :=
  { b with hash := some (b.calculate_hash kec) }

/-- `hash_str.starts_with(&"0".repeat(difficulty))` on the 64-hex-digit
rendering, as a check on the digit list. -/
def leadingZeroDigits : Nat → List Nat → Bool
  | 0, _ => true
  | _ + 1, [] => false
  | d + 1, x :: t => x == 0 && leadingZeroDigits d t

/-- `Block::is_valid_proof` -/
def Block.is_valid_proof (b : Block) (difficulty : Nat) : Bool :=
  match b.hash with
  | some h => leadingZeroDigits difficulty (toHexDigits 64 h)
  | none => false

/-- The mining loop of `Block::mine`, with the attempt counter explicit and a
structural fuel (`mine` below supplies enough fuel that the fuel can only run
out together with the 10,000,000-attempt cap, whose overrun — like any panic —
is modelled as `none`).  On success it returns the sealed block and the
attempt count. -/
def mineAux (kec : List Nat → Nat) (d : Nat) : Block → Nat → Nat → Option (Block × Nat)
  | _, _, 0 => none
  | b, attempts, fuel + 1 =>
    let h := b.calculate_hash kec
    let attempts1 := attempts + 1
    if leadingZeroDigits d (toHexDigits 64 h) then some ({ b with hash := some h }, attempts1)
    else if attempts1 > 10000000 then none
    else mineAux kec d { b with nonce := b.nonce + 1 } attempts1 fuel

/-- `Block::mine` -/
def Block.mine (kec : List Nat → Nat) (b : Block) (difficulty : Nat) : Option (Block × Nat) :=
  mineAux kec difficulty b 0 10000001

/-- `ContractExecutionResult` (src/evm.rs); a log entry is kept as the triple
`(address, topics, data)`. -/
structure ContractExecutionResult where
  success : Bool
  gas_used : Nat
  gas_refunded : Nat
  return_data : List Nat
  contract_address : Option Nat
  logs : List (Nat × List Nat × List Nat)
  reason : String
  error : Option String
  deriving DecidableEq

/-- `Blockchain` (src/blockchain.rs). -/
structure Blockchain where
  blocks : List Block
  state : WorldState
  chain_id : Nat
  deriving DecidableEq

/-- `Blockchain::get_latest_block` — `blocks.last().unwrap()`; `none` models
the panic on an empty chain. -/
def Blockchain.get_latest_block (c : Blockchain) : Option Block :=
  c.blocks.getLast?

/-- `Blockchain::get_block_count` -/
def Blockchain.get_block_count (c : Blockchain) : Nat :=
  c.blocks.length

/-- `Blockchain::get_block_by_number` — `self.blocks.get(number as usize)`. -/
def Blockchain.get_block_by_number (c : Blockchain) (number : Nat) : Option Block :=
  c.blocks.get? number

/-- The external `revm` executor seam: the net effect on the world state of
`load_state_from_world` + `RevmExecutor::execute_transaction` +
`save_state_to_world`, abstracted as a function of the chain (the executor is
configured from the latest block) and the transaction.  The `revm` crate is a
third-party component outside the modelled core. -/
def VMExec : Type :=
  Blockchain → Transaction → Except String (WorldState × ContractExecutionResult)

/-- `Blockchain::execute_with_revm`, with the external VM abstracted as `vm`:
run the VM, always bump the sender nonce (direct field mutation through
`get_account_mut` — note: no `update_state_root`), and on a successful
deployment install the returned code at the reported contract address. -/
def executeWithRevm (vm : VMExec) (kec : List Nat → Nat) (c : Blockchain)
    (tx : Transaction) : Except String (Blockchain × Option ContractExecutionResult) :=
  match vm c tx with
  | .error e => .error e
  | .ok (st', result) =>
    let st2 := st'.withAccount tx.fromAddr (fun a => { a with nonce := a.nonce + 1 })
    let st3 :=
      if result.success then
        match tx.tx_type, result.contract_address with
        | .ContractDeployment, some addr =>
          if result.return_data ≠ [] then
            st2.withAccount addr (fun a => a.set_code kec result.return_data)
          else st2
        | _, _ => st2
      else st2
    .ok ({ c with state := st3 }, some result)

/-- The coinbase short-circuit of `Blockchain::execute_transaction`: credit
`tx.value` to the recipient through `get_account_mut` (direct field mutation —
note: no `update_state_root`). -/
def coinbaseCredit (st : WorldState) (toAddr value : Nat) : WorldState :=
  st.withAccount toAddr (fun a => { a with balance := a.balance + value })

/-- The non-coinbase part of `Blockchain::execute_transaction`: validate,
dispatch contract transactions to the VM, and otherwise run the Transfer path
(nonce check, balance check, `state.transfer`, then the direct
`sender.nonce += 1; sender.balance -= estimated_gas_cost` mutation — note:
the latter two bypass `update_state_root`). -/
def executeTransactionMain (vm : VMExec) (kec : List Nat → Nat) (c : Blockchain)
    (tx : Transaction) : Except String (Blockchain × Option ContractExecutionResult) :=
  match tx.validate with
  | .error e => .error e
  | .ok () =>
    if tx.is_contract_deployment || tx.is_contract_call then
      executeWithRevm vm kec c tx
    else
      let expected_nonce := c.state.get_nonce tx.fromAddr
      if tx.nonce ≠ expected_nonce then
        .error ("Invalid nonce. Expected " ++ toString expected_nonce ++
          ", got " ++ toString tx.nonce)
      else
        let total_cost := tx.value + tx.estimated_gas_cost
        if c.state.get_balance tx.fromAddr < total_cost then
          .error "Insufficient balance for transaction and gas"
        else
          match tx.toAddr with
          | some toAddr =>
            let tr := c.state.transfer kec tx.fromAddr toAddr tx.value
            match tr.2 with
            | .error e => .error e
            | .ok () =>
              let st2 := tr.1.withAccount tx.fromAddr (fun a =>
                { a with nonce := a.nonce + 1,
                         balance := a.balance - tx.estimated_gas_cost })
              .ok ({ c with state := st2 }, none)
          | none => .ok (c, none)

/-- `Blockchain::execute_transaction`: the coinbase short-circuit fires only
when `from` is the zero address AND a recipient is present; otherwise the main
pipeline runs. -/
def executeTransaction (vm : VMExec) (kec : List Nat → Nat) (c : Blockchain)
    (tx : Transaction) : Except String (Blockchain × Option ContractExecutionResult) :=
  if tx.fromAddr = 0 then
    match tx.toAddr with
    | some toAddr => .ok ({ c with state := coinbaseCredit c.state toAddr tx.value }, none)
    | none => executeTransactionMain vm kec c tx
  else executeTransactionMain vm kec c tx

/-- The replay loop of `Blockchain::add_block`: execute each transaction in
order, accumulating `gas_used` (`result.gas_used` when the pipeline returned
an outcome, a flat 21000 otherwise). -/
def replayTxs (vm : VMExec) (kec : List Nat → Nat) :
    Blockchain → List Transaction → Except String (Blockchain × Nat)
  | c, [] => .ok (c, 0)
  | c, tx :: rest =>
    match executeTransaction vm kec c tx with
    | .error e => .error e
    | .ok (c', res) =>
      match replayTxs vm kec c' rest with
      | .error e => .error e
      | .ok (c'', gas) =>
        .ok (c'', (match res with | some r => r.gas_used | none => 21000) + gas)

/-- `Blockchain::add_block`. `none` models the `latest.hash.unwrap()` panic
(reached only after the block-number check passes, as in the source); errors
carry the exact source messages. -/
def Blockchain.add_block (vm : VMExec) (kec : List Nat → Nat) (c : Blockchain)
    (block : Block) : Option (Except String Blockchain) :=
  match c.get_latest_block with
  | none => none
  | some latest =>
    let expected_number := latest.number + 1
    if block.number ≠ expected_number then
      some (.error ("Invalid block number. Expected " ++ toString expected_number ++
        ", got " ++ toString block.number))
    else
      match latest.hash with
      | none => none
      | some latest_hash =>
        if block.parent_hash ≠ latest_hash then some (.error "Invalid parent hash")
        else if block.hash.isSome && !block.is_valid_proof 1 then
          some (.error "Invalid proof of work")
        else
          match replayTxs vm kec c block.transactions with
          | .error e => some (.error e)
          | .ok (c', total_gas_used) =>
            let block1 := { block with gas_used := total_gas_used }
            let block2 := if block1.hash.isNone then block1.set_hash kec else block1
            some (.ok { c' with blocks := c'.blocks ++ [block2] })

/-! ### Association-list lemmas -/

theorem lookupKV_insertKV {β : Type} (l : List (Nat × β)) (a b : Nat) (v : β) :
    lookupKV (insertKV l a v) b = if a = b then some v else lookupKV l b := by
  induction l with
  | nil => simp [insertKV, lookupKV]
  | cons p t ih =>
    obtain ⟨k, w⟩ := p
    simp only [insertKV]
    by_cases hk : k = a
    · subst hk
      by_cases hab : k = b <;> simp [lookupKV, hab]
    · by_cases hkb : k = b
      · subst hkb
        have hab : ¬a = k := fun h => hk h.symm
        simp [lookupKV, hab, hk]
      · simp [lookupKV, hk, hkb, ih]

theorem getOrNew_balance (s : WorldState) (a : Nat) :
    (s.getOrNew a).balance = s.get_balance a := by
  cases h : lookupKV s.accounts a <;>
    simp [WorldState.getOrNew, WorldState.get_balance, h, Account.new]

theorem getOrNew_nonce (s : WorldState) (a : Nat) :
    (s.getOrNew a).nonce = s.get_nonce a := by
  cases h : lookupKV s.accounts a <;>
    simp [WorldState.getOrNew, WorldState.get_nonce, h, Account.new]

theorem get_balance_withAccount_same (s : WorldState) (a : Nat) (f : Account → Account) :
    (s.withAccount a f).get_balance a = (f (s.getOrNew a)).balance := by
  simp [WorldState.withAccount, WorldState.get_balance, lookupKV_insertKV]

theorem get_balance_withAccount_ne (s : WorldState) (a b : Nat) (f : Account → Account)
    (h : a ≠ b) : (s.withAccount a f).get_balance b = s.get_balance b := by
  simp [WorldState.withAccount, WorldState.get_balance, lookupKV_insertKV, h]

theorem get_nonce_withAccount_same (s : WorldState) (a : Nat) (f : Account → Account) :
    (s.withAccount a f).get_nonce a = (f (s.getOrNew a)).nonce := by
  simp [WorldState.withAccount, WorldState.get_nonce, lookupKV_insertKV]

theorem get_nonce_withAccount_ne (s : WorldState) (a b : Nat) (f : Account → Account)
    (h : a ≠ b) : (s.withAccount a f).get_nonce b = s.get_nonce b := by
  simp [WorldState.withAccount, WorldState.get_nonce, lookupKV_insertKV, h]

theorem getOrNew_withAccount_same (s : WorldState) (a : Nat) (f : Account → Account) :
    (s.withAccount a f).getOrNew a = f (s.getOrNew a) := by
  simp [WorldState.withAccount, WorldState.getOrNew, lookupKV_insertKV]

theorem getOrNew_withAccount_ne (s : WorldState) (a b : Nat) (f : Account → Account)
    (h : a ≠ b) : (s.withAccount a f).getOrNew b = s.getOrNew b := by
  simp [WorldState.withAccount, WorldState.getOrNew, lookupKV_insertKV, h]

theorem get_balance_update_state_root (kec : List Nat → Nat) (s : WorldState) (a : Nat) :
    (s.update_state_root kec).get_balance a = s.get_balance a := rfl

theorem get_nonce_update_state_root (kec : List Nat → Nat) (s : WorldState) (a : Nat) :
    (s.update_state_root kec).get_nonce a = s.get_nonce a := rfl

/-- The sender-side mutation of a successful `WorldState::transfer`, expressed
through `withAccount`. -/
theorem transfer_ok_eq (kec : List Nat → Nat) (s : WorldState) (f t v : Nat)
    (hb : ¬ s.get_balance f < v) :
    s.transfer kec f t v =
      (((s.withAccount f (fun a => { a with balance := a.balance - v, nonce := a.nonce + 1 })).withAccount
          t (fun a => a.add_balance v)).update_state_root kec, .ok ()) := by
  have hb' : ¬ (s.getOrNew f).balance < v := by rw [getOrNew_balance]; exact hb
  simp only [WorldState.transfer, if_neg hb, Account.sub_balance, if_neg hb',
    Account.increment_nonce, WorldState.withAccount]

/-- Balance and nonce effects of a successful transfer between distinct
addresses. -/
theorem transfer_effects_ne (kec : List Nat → Nat) (s : WorldState) (f t v : Nat)
    (hb : ¬ s.get_balance f < v) (hft : f ≠ t) :
    (s.transfer kec f t v).2 = .ok () ∧
    (s.transfer kec f t v).1.get_balance f = s.get_balance f - v ∧
    (s.transfer kec f t v).1.get_balance t = s.get_balance t + v ∧
    (s.transfer kec f t v).1.get_nonce f = s.get_nonce f + 1 ∧
    (s.transfer kec f t v).1.get_nonce t = s.get_nonce t := by
  rw [transfer_ok_eq kec s f t v hb]
  have htf : t ≠ f := fun h => hft h.symm
  refine ⟨rfl, ?_, ?_, ?_, ?_⟩
  · rw [get_balance_update_state_root, get_balance_withAccount_ne _ _ _ _ htf,
      get_balance_withAccount_same, getOrNew_balance]
  · rw [get_balance_update_state_root, get_balance_withAccount_same,
      getOrNew_withAccount_ne _ _ _ _ hft, Account.add_balance, getOrNew_balance]
  · rw [get_nonce_update_state_root, get_nonce_withAccount_ne _ _ _ _ htf,
      get_nonce_withAccount_same]
    simp [getOrNew_nonce]
  · rw [get_nonce_update_state_root, get_nonce_withAccount_same,
      getOrNew_withAccount_ne _ _ _ _ hft, Account.add_balance, getOrNew_nonce]

/-- Balance and nonce effects of a successful self-transfer: the debit and the
credit land on the same account. -/
theorem transfer_effects_self (kec : List Nat → Nat) (s : WorldState) (a v : Nat)
    (hb : ¬ s.get_balance a < v) :
    (s.transfer kec a a v).2 = .ok () ∧
    (s.transfer kec a a v).1.get_balance a = s.get_balance a ∧
    (s.transfer kec a a v).1.get_nonce a = s.get_nonce a + 1 := by
  rw [transfer_ok_eq kec s a a v hb]
  refine ⟨rfl, ?_, ?_⟩
  · rw [get_balance_update_state_root, get_balance_withAccount_same,
      getOrNew_withAccount_same, Account.add_balance]
    simp only []
    rw [getOrNew_balance]
    omega
  · rw [get_nonce_update_state_root, get_nonce_withAccount_same,
      getOrNew_withAccount_same, Account.add_balance]
    simp only []
    rw [getOrNew_nonce]

theorem getOrNew_update_state_root (kec : List Nat → Nat) (s : WorldState) (a : Nat) :
    (s.update_state_root kec).getOrNew a = s.getOrNew a := rfl

/-! ### Observation helpers on pipeline results -/

/-- World state resulting from a successful `execute_transaction`, `none` on error. -/
def execStateAfter : Except String (Blockchain × Option ContractExecutionResult) → Option WorldState
  | .ok (c', _) => some c'.state
  | .error _ => none

/-- `balance(a) + balance(b) + gas` in the post-state of a successful
`execute_transaction`, `none` on error. -/
def execBalanceSum (r : Except String (Blockchain × Option ContractExecutionResult))
    (a b gas : Nat) : Option Nat :=
  match execStateAfter r with
  | some s => some (s.get_balance a + s.get_balance b + gas)
  | none => none

/-- `nonce(a)` in the post-state of a successful `execute_transaction`,
`none` on error. -/
def execNonceAfter (r : Except String (Blockchain × Option ContractExecutionResult))
    (a : Nat) : Option Nat :=
  match execStateAfter r with
  | some s => some (s.get_nonce a)
  | none => none

/-- Concrete fixtures: an inert VM seam (no claim settled here exercises the
external `revm` executor), an already-sealed genesis-like block, and a chain
whose state funds address `1`. -/
def vm0 : VMExec := fun _ _ => .error "external VM unavailable"

def demoGenesis : Block :=
  { number := 0, hash := some 7, parent_hash := 0, transactions := [],
    timestamp := 0, gas_limit := 30000000, gas_used := 0, nonce := 0 }

def stA : WorldState :=
  WorldState.set_balance testHash WorldState.new 1 1000000000000000

def cA : Blockchain :=
  { blocks := [demoGenesis], state := stA, chain_id := 1337 }

def txT : Transaction := Transaction.new_transfer 1 2 100 0

def tx300 : Transaction := Transaction.new_transfer 1 2 300 0

/-- Value/gas conservation of the successful Transfer path of
`Blockchain::execute_transaction` for distinct sender and recipient: the two
touched balances plus the flat gas charge sum to the two pre-state balances
(value moves internally; only gas leaves the pair). -/
theorem transfer_path_conservation (vm : VMExec) (kec : List Nat → Nat)
    (c : Blockchain) (tx : Transaction) (t : Nat)
    (hfrom : tx.fromAddr ≠ 0) (htype : tx.tx_type = .Transfer)
    (hto : tx.toAddr = some t) (hne : t ≠ tx.fromAddr)
    (hok : (executeTransaction vm kec c tx).isOk = true) :
    execBalanceSum (executeTransaction vm kec c tx) tx.fromAddr t tx.estimated_gas_cost =
      some (c.state.get_balance tx.fromAddr + c.state.get_balance t) := by
  have hmain : executeTransaction vm kec c tx = executeTransactionMain vm kec c tx := by
    simp [executeTransaction, hfrom]
  rw [hmain] at hok ⊢
  cases hval : tx.validate with
  | error e =>
    rw [show executeTransactionMain vm kec c tx = .error e by
      simp [executeTransactionMain, hval]] at hok
    simp [Except.isOk, Except.toBool] at hok
  | ok u =>
    have hdc : (tx.is_contract_deployment || tx.is_contract_call) = false := by
      simp [Transaction.is_contract_deployment, Transaction.is_contract_call, htype]
    simp only [executeTransactionMain, hval, hdc, Bool.false_eq_true, if_false, hto] at hok ⊢
    by_cases hnonce : tx.nonce ≠ c.state.get_nonce tx.fromAddr
    · rw [if_pos hnonce] at hok
      simp [Except.isOk, Except.toBool] at hok
    · rw [if_neg hnonce] at hok ⊢
      by_cases hbal : c.state.get_balance tx.fromAddr < tx.value + tx.estimated_gas_cost
      · rw [if_pos hbal] at hok
        simp [Except.isOk, Except.toBool] at hok
      · rw [if_neg hbal] at hok ⊢
        have hbv : ¬ c.state.get_balance tx.fromAddr < tx.value := by omega
        have hft : tx.fromAddr ≠ t := fun h => hne h.symm
        obtain ⟨htr2, hbf, hbt, _, _⟩ :=
          transfer_effects_ne kec c.state tx.fromAddr t tx.value hbv hft
        rw [htr2]
        simp only [execBalanceSum, execStateAfter]
        rw [get_balance_withAccount_same, get_balance_withAccount_ne _ _ _ _ hft]
        simp only [getOrNew_balance]
        rw [hbf, hbt, Option.some_inj]
        omega

/-- Witness: the conservation identity on a concrete funded transfer. -/
theorem transfer_path_conservation_witness :
    execBalanceSum (executeTransaction vm0 testHash cA txT) txT.fromAddr 2
        txT.estimated_gas_cost =
      some (cA.state.get_balance txT.fromAddr + cA.state.get_balance 2) :=
  transfer_path_conservation vm0 testHash cA txT 2 (by decide) (by decide) (by decide)
    (by decide) (by decide)

/-- Counterexample to the claim as stated: with `value = 300` the claimed
right-hand side `balance_before(from) + balance_before(to) + value` differs
from what the code produces (the execution succeeds, yet the sum with `+ value`
fails). -/
theorem transfer_conservation_claim_cex :
    (executeTransaction vm0 testHash cA tx300).isOk = true ∧
    execBalanceSum (executeTransaction vm0 testHash cA tx300) 1 2 tx300.estimated_gas_cost ≠
      some (cA.state.get_balance 1 + cA.state.get_balance 2 + tx300.value) := by
  constructor
  · decide
  · decide

/-- The Transfer path increments the sender nonce twice — once inside
`WorldState::transfer` and once more by the direct `sender.nonce += 1` in
`Blockchain::execute_transaction` — so a sender starting at nonce 0 ends a
successful transfer at nonce 2 (the spec, and the repository's own
consecutive-nonce tests, require 1). -/
theorem exec_transfer_nonce_increments_twice :
    cA.state.get_nonce 1 = 0 ∧
    (executeTransaction vm0 testHash cA txT).isOk = true ∧
    execNonceAfter (executeTransaction vm0 testHash cA txT) 1 = some 2 := by
  refine ⟨by decide, by decide, by decide⟩

/-- Self-transfer at the `WorldState` interface: within balance it succeeds,
leaves the balance unchanged and bumps the nonce once; beyond balance it
fails with the insufficient-balance error and returns the state untouched. -/
theorem self_transfer_spec (kec : List Nat → Nat) (s : WorldState) (a amt : Nat) :
    (amt ≤ s.get_balance a →
      (s.transfer kec a a amt).2 = .ok () ∧
      (s.transfer kec a a amt).1.get_balance a = s.get_balance a ∧
      (s.transfer kec a a amt).1.get_nonce a = s.get_nonce a + 1) ∧
    (s.get_balance a < amt →
      s.transfer kec a a amt = (s, .error "Insufficient balance")) := by
  constructor
  · intro h
    exact transfer_effects_self kec s a amt (by omega)
  · intro h
    rw [WorldState.transfer, if_pos h]

/-- Witness: a concrete self-transfer within balance. -/
theorem self_transfer_spec_witness :
    5 ≤ stA.get_balance 1 ∧
    ((stA.transfer testHash 1 1 5).2 = .ok () ∧
     (stA.transfer testHash 1 1 5).1.get_balance 1 = stA.get_balance 1 ∧
     (stA.transfer testHash 1 1 5).1.get_nonce 1 = stA.get_nonce 1 + 1) :=
  ⟨by decide, (self_transfer_spec testHash stA 1 5).1 (by decide)⟩

/-- Does the stored `state_root` match what `update_state_root` would compute
from the current accounts map? -/
def rootConsistentB (kec : List Nat → Nat) (s : WorldState) : Bool :=
  s.state_root == computeStateRoot kec s.accounts

/-- `rootConsistentB` on the post-state of an `execute_transaction` result. -/
def execRootConsistent (kec : List Nat → Nat)
    (r : Except String (Blockchain × Option ContractExecutionResult)) : Option Bool :=
  match execStateAfter r with
  | some s => some (rootConsistentB kec s)
  | none => none

/-- A coinbase transaction (zero sender, `gas_limit = gas_price = 0` as built
by the miner) and a fresh chain. -/
def txCB : Transaction :=
  { fromAddr := 0, toAddr := some 2, value := 5000, data := [], gas_limit := 0,
    gas_price := 0, nonce := 0, hash := none, tx_type := .Transfer }

def cFresh : Blockchain :=
  { blocks := [demoGenesis], state := WorldState.new, chain_id := 1337 }

set_option maxRecDepth 100000 in
/-- The coinbase credit and the Transfer-path gas debit both mutate accounts
through `get_account_mut` without calling `update_state_root`, so after either
chain-level execution the stored `state_root` is stale (here exhibited with the
concrete hash instantiation `testHash`). -/
theorem chain_exec_leaves_state_root_stale :
    (executeTransaction vm0 testHash cFresh txCB).isOk = true ∧
    execRootConsistent testHash (executeTransaction vm0 testHash cFresh txCB) = some false ∧
    (executeTransaction vm0 testHash cA txT).isOk = true ∧
    execRootConsistent testHash (executeTransaction vm0 testHash cA txT) = some false := by
  refine ⟨by decide, by decide, by decide, by decide⟩

/-- The mutating `WorldState` operations, for quantifying over arbitrary
sequences of mutations (each constructor applies the source method of the same
name; fallible methods keep their returned state, which on failure is the
input state). -/
inductive MutOp where
  | create_account (address : Nat) (account : Account)
  | delete_account (address : Nat)
  | set_balance (address balance : Nat)
  | set_nonce (address nonce : Nat)
  | increment_nonce (address : Nat)
  | transferOp (fromAddr toAddr amount : Nat)
  | deploy_contract (deployer contract_address : Nat) (code : List Nat)
  | set_contract_code (address : Nat) (code : List Nat)
  | set_storage (address key value : Nat)
  | clear_storage (address : Nat)
  | remove_empty_accounts
  | apply_changes (other : WorldState)

def applyOp (kec : List Nat → Nat) (s : WorldState) : MutOp → WorldState
  | .create_account a acc => s.create_account kec a acc
  | .delete_account a => s.delete_account kec a
  | .set_balance a b => s.set_balance kec a b
  | .set_nonce a n => s.set_nonce kec a n
  | .increment_nonce a => s.increment_nonce kec a
  | .transferOp f t v => (s.transfer kec f t v).1
  | .deploy_contract d ca code => (s.deploy_contract kec d ca code).1
  | .set_contract_code a code => s.set_contract_code kec a code
  | .set_storage a k v => s.set_storage kec a k v
  | .clear_storage a => s.clear_storage kec a
  | .remove_empty_accounts => s.remove_empty_accounts kec
  | .apply_changes other => s.apply_changes kec other

def applyOps (kec : List Nat → Nat) (s : WorldState) (ops : List MutOp) : WorldState :=
  ops.foldl (applyOp kec) s

/-- Snapshot/restore round-trip: restoring a snapshot of `W` onto the state
obtained by any sequence of mutating operations yields exactly `W` (accounts
and `state_root` both). -/
theorem snapshot_restore_round_trip (kec : List Nat → Nat) (s : WorldState)
    (ops : List MutOp) :
    (applyOps kec s ops).restore_snapshot s.snapshot = s := by
  cases s
  rfl

/-- `Block::mine` invariant, by induction over the loop: any normal return
seals the block with the hash just found, which satisfies the difficulty
check. -/
theorem mineAux_sealed (kec : List Nat → Nat) (d : Nat) :
    ∀ fuel b attempts b' att, mineAux kec d b attempts fuel = some (b', att) →
      b'.hash = some (b'.calculate_hash kec) ∧ b'.is_valid_proof d = true := by
  intro fuel
  induction fuel with
  | zero =>
    intro b attempts b' att h
    simp [mineAux] at h
  | succ fuel ih =>
    intro b attempts b' att h
    simp only [mineAux] at h
    by_cases hz : leadingZeroDigits d (toHexDigits 64 (b.calculate_hash kec)) = true
    · rw [if_pos hz] at h
      obtain ⟨hb, _⟩ := Prod.mk.injEq .. ▸ Option.some_inj.mp h
      subst hb
      refine ⟨rfl, ?_⟩
      simpa [Block.is_valid_proof] using hz
    · rw [if_neg hz] at h
      by_cases hcap : attempts + 1 > 10000000
      · rw [if_pos hcap] at h
        cases h
      · rw [if_neg hcap] at h
        exact ih _ _ _ _ h

/-- Whenever `Block::mine` returns normally, the block's hash is set to the
hash found and `is_valid_proof(d)` holds for it. -/
theorem mine_spec (kec : List Nat → Nat) (b : Block) (d : Nat) (b' : Block) (att : Nat)
    (h : b.mine kec d = some (b', att)) :
    b'.hash = some (b'.calculate_hash kec) ∧ b'.is_valid_proof d = true :=
  mineAux_sealed kec d 10000001 b 0 b' att h

set_option maxRecDepth 100000 in
/-- Witness: mining at difficulty 0 succeeds on the first attempt. -/
theorem mine_spec_witness :
    (Block.set_hash testHash (Block.new 1 7 [] 0)).hash =
      some ((Block.set_hash testHash (Block.new 1 7 [] 0)).calculate_hash testHash) ∧
    (Block.set_hash testHash (Block.new 1 7 [] 0)).is_valid_proof 0 = true :=
  mine_spec testHash (Block.new 1 7 [] 0) 0
    (Block.set_hash testHash (Block.new 1 7 [] 0)) 1 (by decide)

/-- `get_block_by_number` indexes the block list by the argument: it returns
the block at index `n` when `n` is in range (whose `number` field is `n` on
index-numbered chains), returns nothing past the end, and in particular does
not unconditionally return the latest block. -/
theorem get_block_by_number_spec (c : Blockchain) (n : Nat) :
    (∀ h : n < c.blocks.length, c.get_block_by_number n = some (c.blocks.get ⟨n, h⟩)) ∧
    (c.blocks.length ≤ n → c.get_block_by_number n = none) ∧
    ((∀ i, ∀ hi : i < c.blocks.length, (c.blocks.get ⟨i, hi⟩).number = i) →
      ∀ b, c.get_block_by_number n = some b → b.number = n) ∧
    (∀ b0 b1, c.blocks = [b0, b1] → b0 ≠ b1 → c.get_block_by_number 0 ≠ some b1) := by
  refine ⟨?_, ?_, ?_, ?_⟩
  · intro h
    exact List.get?_eq_get h
  · intro h
    exact List.get?_eq_none.mpr h
  · intro hidx b hb
    obtain ⟨hn, hget⟩ := List.get?_eq_some.mp hb
    rw [← hget]
    exact hidx n hn
  · intro b0 b1 hbl hne hcontra
    rw [Blockchain.get_block_by_number, hbl] at hcontra
    exact hne (Option.some_inj.mp hcontra)

/-- Witness: on a concrete one-block chain, index 0 is returned. -/
theorem get_block_by_number_spec_witness :
    cA.get_block_by_number 0 = some (cA.blocks.get ⟨0, by decide⟩) :=
  (get_block_by_number_spec cA 0).1 (by decide)

/-- `add_block` check ordering: wrong number fails first with the
invalid-number error; then a wrong parent hash fails; then, only when a hash
is already present, an insufficient proof of work fails; with no hash present
no proof-of-work check is applied — the result is determined by the replay
alone, and on success the appended block is sealed by `set_hash`. -/
theorem add_block_checks (vm : VMExec) (kec : List Nat → Nat) (c : Blockchain)
    (block latest : Block) (lh : Nat)
    (hlat : c.get_latest_block = some latest) (hh : latest.hash = some lh) :
    (block.number ≠ latest.number + 1 →
      c.add_block vm kec block = some (.error ("Invalid block number. Expected " ++
        toString (latest.number + 1) ++ ", got " ++ toString block.number))) ∧
    (block.number = latest.number + 1 → block.parent_hash ≠ lh →
      c.add_block vm kec block = some (.error "Invalid parent hash")) ∧
    (block.number = latest.number + 1 → block.parent_hash = lh →
      block.hash.isSome = true → block.is_valid_proof 1 = false →
      c.add_block vm kec block = some (.error "Invalid proof of work")) ∧
    (block.number = latest.number + 1 → block.parent_hash = lh → block.hash = none →
      c.add_block vm kec block =
        (match replayTxs vm kec c block.transactions with
         | .error e => some (.error e)
         | .ok (c', g) => some (.ok { c' with blocks := c'.blocks ++
             [Block.set_hash kec { block with gas_used := g }] }))) := by
  rw [Blockchain.get_latest_block] at hlat
  refine ⟨?_, ?_, ?_, ?_⟩
  · intro h1
    simp only [Blockchain.add_block, Blockchain.get_latest_block, hlat]
    rw [if_pos h1]
  · intro h1 h2
    simp only [Blockchain.add_block, Blockchain.get_latest_block, hlat, hh]
    rw [if_neg (fun hn => hn h1), if_pos h2]
  · intro h1 h2 h3 h4
    simp only [Blockchain.add_block, Blockchain.get_latest_block, hlat, hh]
    rw [if_neg (fun hn => hn h1), if_neg (fun hn => hn h2), if_pos (by simp [h3, h4])]
  · intro h1 h2 h3
    simp only [Blockchain.add_block, Blockchain.get_latest_block, hlat, hh]
    rw [if_neg (fun hn => hn h1), if_neg (fun hn => hn h2), if_neg (by simp [h3])]
    cases hrep : replayTxs vm kec c block.transactions with
    | error e => rfl
    | ok p =>
      obtain ⟨c', g⟩ := p
      simp [h3, Block.set_hash]

/-- Witness: a wrong-numbered block is rejected with the invalid-number
error on a concrete chain. -/
theorem add_block_checks_witness :
    cA.add_block vm0 testHash { demoGenesis with number := 5 } =
      some (.error ("Invalid block number. Expected " ++ toString (demoGenesis.number + 1) ++
        ", got " ++ toString ({ demoGenesis with number := 5 } : Block).number)) :=
  (add_block_checks vm0 testHash cA { demoGenesis with number := 5 } demoGenesis 7
    (by decide) (by decide)).1 (by decide)

/-! ### State-root purity (independence from `HashMap` iteration order) -/

/-- The accounts map has unique keys — the invariant every `HashMap`-backed
association list enjoys. -/
def NodupKeys (l : List (Nat × Account)) : Prop :=
  (l.map Prod.fst).Nodup

instance (l : List (Nat × Account)) : Decidable (NodupKeys l) := by
  unfold NodupKeys
  infer_instance

theorem lookupKV_eq_some_iff {l : List (Nat × Account)} (hn : NodupKeys l)
    (k : Nat) (v : Account) : lookupKV l k = some v ↔ (k, v) ∈ l := by
  induction l with
  | nil => simp [lookupKV]
  | cons p t ih =>
    obtain ⟨a, b⟩ := p
    rw [NodupKeys, List.map_cons, List.nodup_cons] at hn
    by_cases hak : a = k
    · subst hak
      constructor
      · intro h
        simp [lookupKV] at h
        subst h
        exact List.mem_cons_self _ _
      · intro h
        rcases List.mem_cons.mp h with h | h
        · injection h with h1 h2
          subst h2
          simp [lookupKV]
        · exact absurd (List.mem_map_of_mem Prod.fst h) hn.1
    · constructor
      · intro h
        simp only [lookupKV] at h
        rw [if_neg hak] at h
        exact List.mem_cons_of_mem _ ((ih hn.2).mp h)
      · intro h
        rcases List.mem_cons.mp h with h | h
        · injection h with h1 h2
          exact absurd h1.symm hak
        · simp only [lookupKV]
          rw [if_neg hak]
          exact (ih hn.2).mpr h

theorem nodupKeys_nodup {l : List (Nat × Account)} (hn : NodupKeys l) : l.Nodup :=
  List.Nodup.of_map Prod.fst hn

/-- Two unique-keyed association lists that agree as finite maps are
permutations of each other. -/
theorem perm_of_lookupKV_eq {l1 l2 : List (Nat × Account)} (h1 : NodupKeys l1)
    (h2 : NodupKeys l2) (h : ∀ k, lookupKV l1 k = lookupKV l2 k) : l1.Perm l2 := by
  apply List.perm_of_nodup_nodup_toFinset_eq (nodupKeys_nodup h1) (nodupKeys_nodup h2)
  apply Finset.ext
  rintro ⟨k, v⟩
  rw [List.mem_toFinset, List.mem_toFinset, ← lookupKV_eq_some_iff h1,
    ← lookupKV_eq_some_iff h2, h k]

instance : IsTotal (Nat × Account) (fun p q => p.1 ≤ q.1) :=
  ⟨fun a b => Nat.le_total a.1 b.1⟩

instance : IsTrans (Nat × Account) (fun p q => p.1 ≤ q.1) :=
  ⟨fun _ _ _ h1 h2 => Nat.le_trans h1 h2⟩

instance : IsAntisymm (Nat × Account) (fun p q => p.1 < q.1) :=
  ⟨fun _ _ h1 h2 => absurd (Nat.lt_trans h1 h2) (Nat.lt_irrefl _)⟩

theorem sortByKey_perm (l : List (Nat × Account)) : (sortByKey l).Perm l :=
  List.perm_insertionSort _ l

theorem sortByKey_sorted (l : List (Nat × Account)) :
    List.Sorted (fun p q : Nat × Account => p.1 ≤ q.1) (sortByKey l) :=
  List.sorted_insertionSort _ l

theorem nodupKeys_of_perm {l1 l2 : List (Nat × Account)} (h : l1.Perm l2)
    (hn : NodupKeys l1) : NodupKeys l2 :=
  ((h.map Prod.fst).nodup_iff).mp hn

/-- On unique keys, sortedness by key weak inequality upgrades to strict. -/
theorem sorted_lt_of_sorted_le {l : List (Nat × Account)}
    (hs : List.Sorted (fun p q : Nat × Account => p.1 ≤ q.1) l) (hn : NodupKeys l) :
    List.Sorted (fun p q : Nat × Account => p.1 < q.1) l := by
  induction l with
  | nil => simp
  | cons a t ih =>
    rw [List.sorted_cons] at hs ⊢
    rw [NodupKeys, List.map_cons, List.nodup_cons] at hn
    refine ⟨?_, ih hs.2 hn.2⟩
    intro b hb
    have hne : a.1 ≠ b.1 := fun he => hn.1 (he ▸ List.mem_map_of_mem Prod.fst hb)
    exact Nat.lt_of_le_of_ne (hs.1 b hb) hne

/-- Permutations with unique keys sort identically: the sorted enumeration is
canonical, which is exactly why the source's sort-before-hash makes the digest
independent of `HashMap` iteration order. -/
theorem sortByKey_eq_of_perm {l1 l2 : List (Nat × Account)} (hp : l1.Perm l2)
    (hn1 : NodupKeys l1) : sortByKey l1 = sortByKey l2 := by
  have hn2 : NodupKeys l2 := nodupKeys_of_perm hp hn1
  exact List.eq_of_perm_of_sorted
    ((sortByKey_perm l1).trans (hp.trans (sortByKey_perm l2).symm))
    (sorted_lt_of_sorted_le (sortByKey_sorted l1)
      (nodupKeys_of_perm (sortByKey_perm l1).symm hn1))
    (sorted_lt_of_sorted_le (sortByKey_sorted l2)
      (nodupKeys_of_perm (sortByKey_perm l2).symm hn2))

/-- `A_1`: the 20-byte address filled with byte value 1. -/
def addrA1 : Nat := fromBytes (List.replicate 20 1)

/-- S4 fixture: a world state whose sole mutation is `set_balance(A_1, 1000)`. -/
def wsS4 (kec : List Nat → Nat) : WorldState :=
  WorldState.set_balance kec WorldState.new addrA1 1000

/-- S4 fixture, independently constructed. -/
def wsS4dup (kec : List Nat → Nat) : WorldState :=
  WorldState.set_balance kec WorldState.new addrA1 1000

/-- `update_state_root` is a pure function of the accounts map: unique-keyed
maps that agree as finite maps (in any iteration order) hash to the same root;
in particular the S4 states agree, and their root differs from the empty root
whenever the digest of the one-account stream is nonzero. -/
theorem state_root_purity (kec : List Nat → Nat) (l1 l2 : List (Nat × Account)) :
    (NodupKeys l1 → NodupKeys l2 → (∀ k, lookupKV l1 k = lookupKV l2 k) →
      computeStateRoot kec l1 = computeStateRoot kec l2) ∧
    (wsS4 kec).state_root = (wsS4dup kec).state_root ∧
    (computeStateRoot kec (wsS4 kec).accounts ≠ 0 →
      (wsS4 kec).state_root ≠ WorldState.new.state_root) := by
  refine ⟨?_, rfl, ?_⟩
  · intro h1 h2 h
    have hp := perm_of_lookupKV_eq h1 h2 h
    rw [computeStateRoot, computeStateRoot]
    by_cases hnil : l1 = []
    · subst hnil
      rw [hp.symm.eq_nil]
    · have hnil2 : l2 ≠ [] := fun he => hnil ((he ▸ hp).eq_nil)
      rw [if_neg hnil, if_neg hnil2, sortByKey_eq_of_perm hp h1]
  · intro h0
    exact fun hc => h0 hc

set_option maxRecDepth 100000 in
/-- Witness: two orderings of the same two-account map hash identically under
the concrete hash, and the S4 root is nonzero there. -/
theorem state_root_purity_witness :
    computeStateRoot testHash [(1, Account.new), (2, Account.new_with_balance 5)] =
      computeStateRoot testHash [(2, Account.new_with_balance 5), (1, Account.new)] ∧
    computeStateRoot testHash (wsS4 testHash).accounts ≠ 0 ∧
    (wsS4 testHash).state_root ≠ WorldState.new.state_root := by
  refine ⟨(state_root_purity testHash [(1, Account.new), (2, Account.new_with_balance 5)]
    [(2, Account.new_with_balance 5), (1, Account.new)]).1 (by decide) (by decide) ?_,
    by decide,
    (state_root_purity testHash [] []).2.2 (by decide)⟩
  intro k
  by_cases h1 : (1 : Nat) = k
  · subst h1
    decide
  · by_cases h2 : (2 : Nat) = k
    · subst h2
      decide
    · simp [lookupKV, h1, h2]

/-! ### Transaction hash-input injectivity -/

/-- The field ranges guaranteed by the Rust types (`Address` is 20 bytes,
`U256` 32 bytes, `u64` 8 bytes). -/
def WfTx (t : Transaction) : Prop :=
  t.fromAddr < 2 ^ 160 ∧ t.toAddr.getD 0 < 2 ^ 160 ∧ t.value < 2 ^ 256 ∧
    t.gas_limit < 2 ^ 64 ∧ t.gas_price < 2 ^ 256 ∧ t.nonce < 2 ^ 64

/-- The `to` field is hashed as 20 bytes, with `None` encoded as 20 zero
bytes — i.e. exactly like `Some(zero address)`. -/
theorem txHashInput_decomp (t : Transaction) :
    txHashInput t = toBytes 20 t.fromAddr ++ (toBytes 20 (t.toAddr.getD 0) ++
      (toBytes 32 t.value ++ (t.data ++ (toBytes 8 t.gas_limit ++
      (toBytes 32 t.gas_price ++ (toBytes 8 t.nonce ++ [t.tx_type.tag])))))) := by
  cases h : t.toAddr <;> simp [txHashInput, h, toBytes_zero, List.append_assoc]

/-- The hash input determines every envelope field except that
`to = Some(zero)` and `to = None` share an encoding: two transactions feed
Keccak256 the same byte stream iff they agree on `from`, `value`, `data`,
`gas_limit`, `gas_price`, `nonce`, `tx_type` and on `to` up to the
`Some(zero)`/`None` identification. -/
theorem txHashInput_inj_iff (t1 t2 : Transaction) (h1 : WfTx t1) (h2 : WfTx t2) :
    txHashInput t1 = txHashInput t2 ↔
      (t1.fromAddr = t2.fromAddr ∧ t1.toAddr.getD 0 = t2.toAddr.getD 0 ∧
       t1.value = t2.value ∧ t1.data = t2.data ∧ t1.gas_limit = t2.gas_limit ∧
       t1.gas_price = t2.gas_price ∧ t1.nonce = t2.nonce ∧ t1.tx_type = t2.tx_type) := by
  obtain ⟨hf1, ht1, hv1, hg1, hp1, hn1⟩ := h1
  obtain ⟨hf2, ht2, hv2, hg2, hp2, hn2⟩ := h2
  have h160 : (2 : Nat) ^ 160 = 256 ^ 20 := by norm_num
  have h256 : (2 : Nat) ^ 256 = 256 ^ 32 := by norm_num
  have h64 : (2 : Nat) ^ 64 = 256 ^ 8 := by norm_num
  rw [h160] at hf1 ht1 hf2 ht2
  rw [h256] at hv1 hp1 hv2 hp2
  rw [h64] at hg1 hn1 hg2 hn2
  constructor
  · intro h
    rw [txHashInput_decomp, txHashInput_decomp] at h
    obtain ⟨e1, h⟩ := List.append_inj h (by rw [toBytes_length, toBytes_length])
    obtain ⟨e2, h⟩ := List.append_inj h (by rw [toBytes_length, toBytes_length])
    obtain ⟨e3, h⟩ := List.append_inj h (by rw [toBytes_length, toBytes_length])
    obtain ⟨e4, h⟩ := List.append_inj' h (by simp [toBytes_length])
    obtain ⟨e5, h⟩ := List.append_inj h (by rw [toBytes_length, toBytes_length])
    obtain ⟨e6, h⟩ := List.append_inj h (by rw [toBytes_length, toBytes_length])
    obtain ⟨e7, e8⟩ := List.append_inj h (by rw [toBytes_length, toBytes_length])
    refine ⟨toBytes_inj hf1 hf2 e1, toBytes_inj ht1 ht2 e2, toBytes_inj hv1 hv2 e3,
      e4, toBytes_inj hg1 hg2 e5, toBytes_inj hp1 hp2 e6, toBytes_inj hn1 hn2 e7, ?_⟩
    have htag : t1.tx_type.tag = t2.tx_type.tag := by
      injection e8
    cases hty1 : t1.tx_type <;> cases hty2 : t2.tx_type <;>
      simp_all [TransactionType.tag]
  · rintro ⟨f, tto, v, d, gl, gp, n, ty⟩
    rw [txHashInput_decomp, txHashInput_decomp, f, tto, v, d, gl, gp, n, ty]

/-- Witness: the characterization applied to two concrete transactions that
differ only in `value`, whose hash inputs are accordingly distinct. -/
theorem txHashInput_inj_iff_witness :
    txHashInput txT = txHashInput tx300 ↔
      (txT.fromAddr = tx300.fromAddr ∧ txT.toAddr.getD 0 = tx300.toAddr.getD 0 ∧
       txT.value = tx300.value ∧ txT.data = tx300.data ∧ txT.gas_limit = tx300.gas_limit ∧
       txT.gas_price = tx300.gas_price ∧ txT.nonce = tx300.nonce ∧
       txT.tx_type = tx300.tx_type) :=
  txHashInput_inj_iff txT tx300
    ⟨by decide, by decide, by decide, by decide, by decide, by decide⟩
    ⟨by decide, by decide, by decide, by decide, by decide, by decide⟩

/-- Two transactions differing in the `to` envelope field
(`Some(zero address)` versus `None`), all other fields equal. -/
def txSomeZero : Transaction :=
  { fromAddr := 3, toAddr := some 0, value := 1, data := [], gas_limit := 21000,
    gas_price := 20000000000, nonce := 0, hash := none, tx_type := .Transfer }

def txNone : Transaction :=
  { txSomeZero with toAddr := none }

set_option maxRecDepth 100000 in
/-- Counterexample to the claim as stated: `to = Some(zero)` and `to = None`
differ as envelope fields yet produce identical byte streams, hence identical
digests (shown under the concrete hash; the streams are equal for every
hash function). -/
theorem tx_hash_collision_cex :
    txSomeZero.toAddr ≠ txNone.toAddr ∧
    txHashInput txSomeZero = txHashInput txNone ∧
    Transaction.calculate_hash testHash txSomeZero =
      Transaction.calculate_hash testHash txNone := by
  refine ⟨by decide, by decide, by decide⟩

end RustChain
